import Mathlib

/-!
Verification of the `themix` theming system (`src/index.ts`).

The development shallow-embeds the schema-generation algorithm of the
`ThemeManager` class: token validation against the registry, color
dye-processing, scope-based variant expansion, token-name formatting,
caching of the base schema and merging of override builds on top of it,
and the strict/non-strict logger policy.

Modelling conventions:
* JS objects used as ordered string-keyed maps become association lists
  `List (String × v)`; property assignment `o[k] = v` keeps the position of
  an existing key and appends new keys (`objInsert`); the object spread
  `\x7b...base, ...over\x7d` assigns the properties of `over` onto a copy of
  `base` in order (`jsMerge`).
* The external color library (colorus-js) is out of scope per the spec and
  is modelled as an abstract collaborator: `dye` parses a color string
  (`none` models a falsy parse result), `sourceIsValid` is the validity
  flag consulted for variant outputs, variant transforms are functions
  `c → String → c`, and the serializer is a function `c → String → v`.
* The logger is modelled by the list of `(level, message)` pairs a call
  hands to `logger.warn` / `logger.error`; in strict mode `createLogger`
  replaces both methods by a throwing function, modelled by `Except.error`
  carrying the thrown message.  A build therefore returns
  `Except String (schema × logs × newState)`: the TS code mutates instance
  state (`this.baseColorSchema`) only after the processing loop finished,
  so a thrown failure yields no schema and leaves the state unchanged,
  which the `Except.error` case renders by construction.
* TS strings are falsy exactly when empty, so a missing/empty color value
  is modelled by the empty string.
-/

namespace Themix

/-- Lookup in a JS-object association list: value of the first entry with
the given key. -/
def getVal {v : Type} : List (String × v) → String → Option v
  | [], _ => none
  | (k2, x) :: rest, k => if k2 = k then some x else getVal rest k

/-- Key membership in a JS-object association list. -/
def hasKey {v : Type} (m : List (String × v)) (k : String) : Bool :=
  (getVal m k).isSome

/-- JS property assignment `o[k] = x`: an existing key keeps its position
and gets the new value; a new key is appended. -/
def objInsert {v : Type} : List (String × v) → String → v → List (String × v)
  | [], k, x => [(k, x)]
  | (k2, y) :: rest, k, x =>
    if k2 = k then (k2, x) :: rest else (k2, y) :: objInsert rest k x

/-- JS object spread `\x7b...base, ...over\x7d`: assign every property of
`over` onto a copy of `base`, in insertion order of `over`. -/
def jsMerge {v : Type} : List (String × v) → List (String × v) → List (String × v)
  | base, [] => base
  | base, (k, x) :: rest => jsMerge (objInsert base k x) rest

/-- `s.endsWith(post)` on the character-list representation. -/
def strEndsWith (s post : String) : Bool :=
  List.isSuffixOf post.data s.data

/-- Replace every occurrence of the character `.` in `token` by the string
`d`: the runtime effect of `token.replace(/\./g, divider)`. -/
def replaceDots (d : String) (token : String) : String :=
  String.mk (List.flatten (token.data.map (fun c => if c = '.' then d.data else [c])))

/-- Remove the first occurrence of `pat` from `s` (JS
`s.replace(pat, "")` with a plain-string pattern). -/
def removeFirst (pat : List Char) : List Char → List Char
  | [] => []
  | c :: rest =>
    if List.isPrefixOf pat (c :: rest) then List.drop pat.length (c :: rest)
    else c :: removeFirst pat rest

/-- Severity of a logger call (`logger.warn` vs `logger.error`). -/
inductive LogLevel where
  | warn
  | error
deriving DecidableEq

/-- Message thrown by the strict logger (`createLogger` wraps both methods
so that they throw, with the literal substring `Skipping...` removed). -/
def strictify (m : String) : String :=
  "[Theme-Manager]: " ++ String.mk (removeFirst ("Skipping...".data) m.data)

/-- One logger call: in strict mode it throws `strictify m`; otherwise the
message is recorded and execution continues. -/
def emitLog (strict : Bool) (logs : List (LogLevel × String)) (lvl : LogLevel)
    (m : String) : Except String (List (LogLevel × String)) :=
  if strict then Except.error (strictify m) else Except.ok (logs ++ [(lvl, m)])

/-- Warning for a token missing from the registry (line 330). -/
def unregMsg (token : String) : String :=
  s!"Token {token} is not in the registry. Skipping..."

/-- Warning for a token with a falsy color value (line 338). -/
def noColorMsg (token : String) : String :=
  s!"Token {token} has no color. Skipping..."

/-- Warning for a variant transform producing an invalid color (line 393). -/
def invalidVariantMsg (variantKey token : String) : String :=
  s!"Variant {variantKey} for token {token} produced invalid color. Skipping..."

/-- Error message of `parseFromJson` on a falsy parsed value (line 428). -/
def invalidJsonMsg : String :=
  "Invalid JSON format. Unable to parse theme."

/-- Warning of `parseFromJson` when no base schema is cached (line 434). -/
def noBaseWarnMsg : String :=
  "No base color schema provided. Some colors may not be validated correctly. Consider using a base color schema."

/-- Failure raised by the host runtime when `JSON.parse` receives malformed
input; the TS code does not catch it (line 425). -/
def jsonParseErrorMsg : String :=
  "SyntaxError: Unexpected token in JSON"

/-- State of a `ThemeManager` instance.  `c` is the processed-color type of
the external color library, `v` the serialized output type.  The field
`pre` renders the TS field `prefix` (a Lean keyword). -/
structure ThemeManager (c v : Type) where
  dye : String → Option c
  sourceIsValid : c → Bool
  tokens : List String
  colors : List (String × String)
  variants : List (String × (c → String → c))
  colorSerializer : c → String → v
  colorScope : List String
  pre : String
  divider : String
  strict : Bool
  baseColorSchema : Option (List (String × v))

variable {c v : Type}

/-- Formatted token name: `prefix + token.replace(/\./g, divider)`
(line 346). -/
def formatKey (p d token : String) : String :=
  p ++ replaceDots d token

/-- A token is scoped when it ends with `.` followed by one of the
configured scope suffixes (line 351). -/
def isScoped (scope : List String) (token : String) : Bool :=
  scope.any (fun s => strEndsWith token ("." ++ s))

/-- `appendVariants` (lines 385-404): for each configured variant in
insertion order, apply the transform; an invalid result is logged and
skipped, otherwise the variant entry is assigned into the schema. -/
def appendVariants (tm : ThemeManager c v) (token : String) (baseColor : c) :
    List (String × (c → String → c)) →
    List (String × v) × List (LogLevel × String) →
    Except String (List (String × v) × List (LogLevel × String))
  | [], acc => Except.ok acc
  | (variantKey, transformer) :: rest, (schema, logs) =>
    let variantColor := transformer baseColor variantKey
    if tm.sourceIsValid variantColor = false then
      match emitLog tm.strict logs LogLevel.warn (invalidVariantMsg variantKey token) with
      | Except.error e => Except.error e
      | Except.ok logs2 => appendVariants tm token baseColor rest (schema, logs2)
    else
      appendVariants tm token baseColor rest
        (objInsert schema (formatKey tm.pre tm.divider token ++ tm.divider ++ variantKey)
          (tm.colorSerializer variantColor variantKey), logs)

/-- Body of the per-token processing step of `generateTheme`
(lines 327-355): registry check, falsy-value check, dye, base-key
emission, and variant expansion for scoped tokens. -/
def processToken (tm : ThemeManager c v) (schemaColors : List (String × String))
    (token : String) (acc : List (String × v) × List (LogLevel × String)) :
    Except String (List (String × v) × List (LogLevel × String)) :=
  if tm.tokens.contains token = false then
    match emitLog tm.strict acc.2 LogLevel.warn (unregMsg token) with
    | Except.error e => Except.error e
    | Except.ok logs2 => Except.ok (acc.1, logs2)
  else
    let colorValue := (getVal schemaColors token).getD ""
    if colorValue = "" then
      match emitLog tm.strict acc.2 LogLevel.warn (noColorMsg token) with
      | Except.error e => Except.error e
      | Except.ok logs2 => Except.ok (acc.1, logs2)
    else
      match tm.dye colorValue with
      | none => Except.ok acc
      | some processedColor =>
        let schema2 := objInsert acc.1 (formatKey tm.pre tm.divider token)
          (tm.colorSerializer processedColor token)
        if isScoped tm.colorScope token then
          appendVariants tm token processedColor tm.variants (schema2, acc.2)
        else
          Except.ok (schema2, acc.2)

/-- The `for (const token of colorKeys)` loop of `generateTheme`. -/
def buildLoop (tm : ThemeManager c v) (schemaColors : List (String × String)) :
    List String → List (String × v) × List (LogLevel × String) →
    Except String (List (String × v) × List (LogLevel × String))
  | [], acc => Except.ok acc
  | token :: rest, acc =>
    match processToken tm schemaColors token acc with
    | Except.error e => Except.error e
    | Except.ok acc2 => buildLoop tm schemaColors rest acc2

/-- Post-loop merge (lines 358-360): when a base schema is cached, the
built schema is spread on top of it. -/
def mergedSchema (tm : ThemeManager c v) (schema : List (String × v)) : List (String × v) :=
  match tm.baseColorSchema with
  | some base => jsMerge base schema
  | none => schema

/-- Post-loop cache update (lines 362-365): the result is stored as the
base schema exactly on the first no-override build. -/
def nextState (tm : ThemeManager c v) (co : Option (List (String × String)))
    (schema2 : List (String × v)) : ThemeManager c v :=
  if co.isNone && tm.baseColorSchema.isNone then { tm with baseColorSchema := some schema2 }
  else tm

/-- The non-cached path of `generateTheme` (lines 314-367): run the loop
over the chosen color set, merge onto the cached base schema when one
exists, and cache the result when this is the first no-override build. -/
def buildSchema (tm : ThemeManager c v) (co : Option (List (String × String))) :
    Except String (List (String × v) × List (LogLevel × String) × ThemeManager c v) :=
  let schemaColors := co.getD tm.colors
  match buildLoop tm schemaColors (schemaColors.map Prod.fst) ([], []) with
  | Except.error e => Except.error e
  | Except.ok (schema, logs) =>
    Except.ok (mergedSchema tm schema, logs, nextState tm co (mergedSchema tm schema))

/-- `generateTheme` (lines 295-368): a no-argument call with an existing
cache returns the cached schema unchanged; otherwise the schema is built. -/
def generateTheme (tm : ThemeManager c v) (co : Option (List (String × String))) :
    Except String (List (String × v) × List (LogLevel × String) × ThemeManager c v) :=
  match co, tm.baseColorSchema with
  | none, some cached => Except.ok (cached, [], tm)
  | _, _ => buildSchema tm co

/-- Outcome of the host runtime `JSON.parse` on the input string, the
external collaborator of `parseFromJson`: `malformed` models a string that
is not valid JSON (`JSON.parse` throws), `falsyValue` a valid JSON text
denoting a falsy value (`null`, `false`, `0`, `""`), and `obj` a valid
JSON text denoting a token-to-value mapping. -/
inductive JsonParse where
  | malformed
  | falsyValue
  | obj (m : List (String × String))

/-- `parseFromJson` (lines 414-440): `JSON.parse` is not guarded, so a
malformed input propagates the runtime parse failure; a falsy parsed value
is logged as an error and yields an empty schema; otherwise a missing base
schema is warned about and the parsed mapping is passed to `generateTheme`
as the override set. -/
def parseFromJson (tm : ThemeManager c v) (j : JsonParse) :
    Except String (List (String × v) × List (LogLevel × String) × ThemeManager c v) :=
  match j with
  | JsonParse.malformed => Except.error jsonParseErrorMsg
  | JsonParse.falsyValue =>
    match emitLog tm.strict [] LogLevel.error invalidJsonMsg with
    | Except.error e => Except.error e
    | Except.ok logs => Except.ok ([], logs, tm)
  | JsonParse.obj m =>
    match
      (if tm.baseColorSchema.isNone then emitLog tm.strict [] LogLevel.warn noBaseWarnMsg
       else Except.ok []) with
    | Except.error e => Except.error e
    | Except.ok logs =>
      match generateTheme tm (some m) with
      | Except.error e => Except.error e
      | Except.ok (s, logs2, tm2) => Except.ok (s, logs ++ logs2, tm2)

/-- JS `a || b` defaulting on optional string options (`output?.prefix || ""`,
`output?.divider || "."`): an absent or empty string falls back. -/
def jsOrElse (o : Option String) (dflt : String) : String :=
  match o with
  | some s => if s = "" then dflt else s
  | none => dflt

/-- The constructor (lines 249-271): the token registry is the key set of
the `colors` option, the scope defaults to bg/fg/foreground/background,
prefix defaults to the empty string and the divider to `.`. -/
def mkThemeManager (dye : String → Option c) (sourceIsValid : c → Bool)
    (colors : List (String × String)) (scope : Option (List String))
    (variants : List (String × (c → String → c))) (serializer : c → String → v)
    (outputPre outputDivider : Option String) (strict : Bool) : ThemeManager c v :=
  { dye := dye
    sourceIsValid := sourceIsValid
    tokens := colors.map Prod.fst
    colors := colors
    variants := variants
    colorSerializer := serializer
    colorScope := scope.getD ["bg", "fg", "foreground", "background"]
    pre := jsOrElse outputPre ""
    divider := jsOrElse outputDivider "."
    strict := strict
    baseColorSchema := none }

/-- Schema component of a build result (empty on a thrown build). -/
def resultSchema (r : Except String (List (String × v) × List (LogLevel × String) × ThemeManager c v)) :
    List (String × v) :=
  match r with
  | Except.ok (s, _, _) => s
  | Except.error _ => []

/-- Logged messages of a build result. -/
def resultLogs (r : Except String (List (String × v) × List (LogLevel × String) × ThemeManager c v)) :
    List (LogLevel × String) :=
  match r with
  | Except.ok (_, l, _) => l
  | Except.error _ => []

/-- Post-call instance state of a build result (the given default on a
thrown build, whose only state write is never reached). -/
def resultState (r : Except String (List (String × v) × List (LogLevel × String) × ThemeManager c v))
    (dflt : ThemeManager c v) : ThemeManager c v :=
  match r with
  | Except.ok (_, _, t) => t
  | Except.error _ => dflt

/-! ### Pure characterization of the build loop

The `Except`-valued definitions above mirror the control flow of the
source.  The following pure functions compute, for the same inputs, the
schema a non-strict run builds and the list of messages it logs; lemmas
below prove that both the non-strict and the strict run are determined by
them.  They are proof infrastructure, not part of the embedding. -/

/-- Schema produced by the variant loop of one scoped token. -/
def avSchema (tm : ThemeManager c v) (token : String) (baseColor : c) :
    List (String × (c → String → c)) → List (String × v) → List (String × v)
  | [], s => s
  | (vk, f) :: rest, s =>
    if tm.sourceIsValid (f baseColor vk) = false then avSchema tm token baseColor rest s
    else
      avSchema tm token baseColor rest
        (objInsert s (formatKey tm.pre tm.divider token ++ tm.divider ++ vk)
          (tm.colorSerializer (f baseColor vk) vk))

/-- Messages logged by the variant loop of one scoped token. -/
def avLogs (tm : ThemeManager c v) (token : String) (baseColor : c) :
    List (String × (c → String → c)) → List (LogLevel × String)
  | [] => []
  | (vk, f) :: rest =>
    if tm.sourceIsValid (f baseColor vk) = false then
      (LogLevel.warn, invalidVariantMsg vk token) :: avLogs tm token baseColor rest
    else avLogs tm token baseColor rest

/-- Schema update contributed by processing one token. -/
def ptSchema (tm : ThemeManager c v) (sc : List (String × String)) (token : String)
    (s : List (String × v)) : List (String × v) :=
  if tm.tokens.contains token = false then s
  else if (getVal sc token).getD "" = "" then s
  else
    match tm.dye ((getVal sc token).getD "") with
    | none => s
    | some pc =>
      if isScoped tm.colorScope token then
        avSchema tm token pc tm.variants
          (objInsert s (formatKey tm.pre tm.divider token) (tm.colorSerializer pc token))
      else objInsert s (formatKey tm.pre tm.divider token) (tm.colorSerializer pc token)

/-- Messages logged by processing one token. -/
def ptLogs (tm : ThemeManager c v) (sc : List (String × String)) (token : String) :
    List (LogLevel × String) :=
  if tm.tokens.contains token = false then [(LogLevel.warn, unregMsg token)]
  else if (getVal sc token).getD "" = "" then [(LogLevel.warn, noColorMsg token)]
  else
    match tm.dye ((getVal sc token).getD "") with
    | none => []
    | some pc =>
      if isScoped tm.colorScope token then avLogs tm token pc tm.variants else []

/-- Schema built by the whole token loop. -/
def loopSchema (tm : ThemeManager c v) (sc : List (String × String)) :
    List String → List (String × v) → List (String × v)
  | [], s => s
  | t :: ts, s => loopSchema tm sc ts (ptSchema tm sc t s)

/-- Messages logged by the whole token loop. -/
def loopLogs (tm : ThemeManager c v) (sc : List (String × String)) :
    List String → List (LogLevel × String)
  | [] => []
  | t :: ts => ptLogs tm sc t ++ loopLogs tm sc ts

lemma appendVariants_spec_false (tm : ThemeManager c v) (token : String) (baseColor : c)
    (h : tm.strict = false) (vars : List (String × (c → String → c))) :
    ∀ (s : List (String × v)) (l : List (LogLevel × String)),
      appendVariants tm token baseColor vars (s, l) =
        Except.ok (avSchema tm token baseColor vars s, l ++ avLogs tm token baseColor vars) := by
  induction vars with
  | nil => intro s l; simp [appendVariants, avSchema, avLogs]
  | cons p rest ih =>
    intro s l
    obtain ⟨vk, f⟩ := p
    by_cases hv : tm.sourceIsValid (f baseColor vk) = false
    · simp [appendVariants, avSchema, avLogs, emitLog, h, hv, ih]
    · simp [appendVariants, avSchema, avLogs, emitLog, h, hv, ih]

lemma appendVariants_spec_true (tm : ThemeManager c v) (token : String) (baseColor : c)
    (h : tm.strict = true) (vars : List (String × (c → String → c))) :
    ∀ (s : List (String × v)) (l : List (LogLevel × String)),
      appendVariants tm token baseColor vars (s, l) =
        match avLogs tm token baseColor vars with
        | [] => Except.ok (avSchema tm token baseColor vars s, l)
        | (_, m) :: _ => Except.error (strictify m) := by
  induction vars with
  | nil => intro s l; simp [appendVariants, avSchema, avLogs]
  | cons p rest ih =>
    intro s l
    obtain ⟨vk, f⟩ := p
    by_cases hv : tm.sourceIsValid (f baseColor vk) = false
    · simp [appendVariants, avSchema, avLogs, emitLog, h, hv]
    · simp [appendVariants, avSchema, avLogs, emitLog, h, hv, ih]

lemma processToken_spec_false (tm : ThemeManager c v) (sc : List (String × String))
    (t : String) (h : tm.strict = false) (s : List (String × v)) (l : List (LogLevel × String)) :
    processToken tm sc t (s, l) = Except.ok (ptSchema tm sc t s, l ++ ptLogs tm sc t) := by
  by_cases h1 : t ∈ tm.tokens
  · by_cases h2 : (getVal sc t).getD "" = ""
    · simp [processToken, ptSchema, ptLogs, emitLog, h, h1, h2]
    · cases hd : tm.dye ((getVal sc t).getD "") with
      | none => simp [processToken, ptSchema, ptLogs, h1, h2, hd]
      | some pc =>
        by_cases h3 : isScoped tm.colorScope t
        · simp [processToken, ptSchema, ptLogs, h1, h2, hd, h3,
            appendVariants_spec_false tm t pc h]
        · simp [processToken, ptSchema, ptLogs, h1, h2, hd, h3]
  · simp [processToken, ptSchema, ptLogs, emitLog, h, h1]

lemma processToken_spec_true (tm : ThemeManager c v) (sc : List (String × String))
    (t : String) (h : tm.strict = true) (s : List (String × v)) (l : List (LogLevel × String)) :
    processToken tm sc t (s, l) =
      match ptLogs tm sc t with
      | [] => Except.ok (ptSchema tm sc t s, l)
      | (_, m) :: _ => Except.error (strictify m) := by
  by_cases h1 : t ∈ tm.tokens
  · by_cases h2 : (getVal sc t).getD "" = ""
    · simp [processToken, ptSchema, ptLogs, emitLog, h, h1, h2]
    · cases hd : tm.dye ((getVal sc t).getD "") with
      | none => simp [processToken, ptSchema, ptLogs, h1, h2, hd]
      | some pc =>
        by_cases h3 : isScoped tm.colorScope t
        · simp [processToken, ptSchema, ptLogs, h1, h2, hd, h3,
            appendVariants_spec_true tm t pc h]
        · simp [processToken, ptSchema, ptLogs, h1, h2, hd, h3]
  · simp [processToken, ptSchema, ptLogs, emitLog, h, h1]

lemma buildLoop_spec_false (tm : ThemeManager c v) (sc : List (String × String))
    (h : tm.strict = false) (ks : List String) :
    ∀ (s : List (String × v)) (l : List (LogLevel × String)),
      buildLoop tm sc ks (s, l) =
        Except.ok (loopSchema tm sc ks s, l ++ loopLogs tm sc ks) := by
  induction ks with
  | nil => intro s l; simp [buildLoop, loopSchema, loopLogs]
  | cons t ts ih =>
    intro s l
    simp [buildLoop, loopSchema, loopLogs, processToken_spec_false tm sc t h, ih]

lemma buildLoop_spec_true (tm : ThemeManager c v) (sc : List (String × String))
    (h : tm.strict = true) (ks : List String) :
    ∀ (s : List (String × v)) (l : List (LogLevel × String)),
      buildLoop tm sc ks (s, l) =
        match loopLogs tm sc ks with
        | [] => Except.ok (loopSchema tm sc ks s, l)
        | (_, m) :: _ => Except.error (strictify m) := by
  induction ks with
  | nil => intro s l; simp [buildLoop, loopSchema, loopLogs]
  | cons t ts ih =>
    intro s l
    cases hp : ptLogs tm sc t with
    | nil =>
      simp [buildLoop, loopSchema, loopLogs, processToken_spec_true tm sc t h, hp, ih]
    | cons q rest =>
      obtain ⟨lvl, m⟩ := q
      simp [buildLoop, loopSchema, loopLogs, processToken_spec_true tm sc t h, hp]

lemma buildSchema_spec_false (tm : ThemeManager c v) (co : Option (List (String × String)))
    (h : tm.strict = false) :
    buildSchema tm co =
      Except.ok (mergedSchema tm (loopSchema tm (co.getD tm.colors) ((co.getD tm.colors).map Prod.fst) []),
        loopLogs tm (co.getD tm.colors) ((co.getD tm.colors).map Prod.fst),
        nextState tm co (mergedSchema tm (loopSchema tm (co.getD tm.colors) ((co.getD tm.colors).map Prod.fst) []))) := by
  simp [buildSchema, buildLoop_spec_false tm (co.getD tm.colors) h]

lemma buildSchema_spec_true (tm : ThemeManager c v) (co : Option (List (String × String)))
    (h : tm.strict = true) :
    buildSchema tm co =
      match loopLogs tm (co.getD tm.colors) ((co.getD tm.colors).map Prod.fst) with
      | [] =>
        Except.ok (mergedSchema tm (loopSchema tm (co.getD tm.colors) ((co.getD tm.colors).map Prod.fst) []),
          [],
          nextState tm co (mergedSchema tm (loopSchema tm (co.getD tm.colors) ((co.getD tm.colors).map Prod.fst) [])))
      | (_, m) :: _ => Except.error (strictify m) := by
  cases hl : loopLogs tm (co.getD tm.colors) ((co.getD tm.colors).map Prod.fst) with
  | nil => simp [buildSchema, buildLoop_spec_true tm (co.getD tm.colors) h, hl]
  | cons q rest =>
    obtain ⟨lvl, m⟩ := q
    simp [buildSchema, buildLoop_spec_true tm (co.getD tm.colors) h, hl]

lemma generateTheme_cached (tm : ThemeManager c v) (b : List (String × v))
    (h : tm.baseColorSchema = some b) :
    generateTheme tm none = Except.ok (b, [], tm) := by
  simp [generateTheme, h]

lemma generateTheme_build (tm : ThemeManager c v) (co : Option (List (String × String)))
    (h : co = none → tm.baseColorSchema = none) :
    generateTheme tm co = buildSchema tm co := by
  cases co with
  | none => simp [generateTheme, h rfl]
  | some o => cases hb : tm.baseColorSchema <;> simp [generateTheme, hb]

/-! ### Association-list lemmas -/

lemma getVal_append (a b : List (String × v)) (k : String) :
    getVal (a ++ b) k = match getVal a k with | some x => some x | none => getVal b k := by
  induction a with
  | nil => simp [getVal]
  | cons p rest ih =>
    obtain ⟨k2, x⟩ := p
    by_cases hk : k2 = k
    · simp [getVal, hk]
    · simp [getVal, hk, ih]

lemma hasKey_append (a b : List (String × v)) (k : String) :
    hasKey (a ++ b) k = (hasKey a k || hasKey b k) := by
  simp only [hasKey, getVal_append]
  cases getVal a k <;> simp

lemma getVal_objInsert_self (m : List (String × v)) (k : String) (x : v) :
    getVal (objInsert m k x) k = some x := by
  induction m with
  | nil => simp [objInsert, getVal]
  | cons p rest ih =>
    obtain ⟨k2, y⟩ := p
    by_cases hk : k2 = k
    · simp [objInsert, getVal, hk]
    · simp [objInsert, getVal, hk, ih]

lemma getVal_objInsert_ne (m : List (String × v)) (k : String) (x : v) (k2 : String)
    (h : k ≠ k2) : getVal (objInsert m k x) k2 = getVal m k2 := by
  induction m with
  | nil => simp [objInsert, getVal, h]
  | cons p rest ih =>
    obtain ⟨k3, y⟩ := p
    by_cases hk : k3 = k
    · subst hk
      simp [objInsert, getVal, h]
    · simp only [objInsert, if_neg hk]
      by_cases hk2 : k3 = k2
      · simp [getVal, hk2]
      · simp [getVal, hk2, ih]

lemma hasKey_objInsert_self (m : List (String × v)) (k : String) (x : v) :
    hasKey (objInsert m k x) k = true := by
  simp [hasKey, getVal_objInsert_self]

lemma hasKey_objInsert_iff (m : List (String × v)) (k : String) (x : v) (k2 : String) :
    hasKey (objInsert m k x) k2 = true ↔ hasKey m k2 = true ∨ k2 = k := by
  by_cases hk : k = k2
  · subst hk
    simp [hasKey_objInsert_self]
  · rw [hasKey, getVal_objInsert_ne m k x k2 hk, ← hasKey]
    simp only [iff_self_or]
    intro he
    exact absurd he.symm hk

lemma hasKey_objInsert_mono (m : List (String × v)) (k : String) (x : v) (k2 : String)
    (h : hasKey m k2 = true) : hasKey (objInsert m k x) k2 = true :=
  (hasKey_objInsert_iff m k x k2).mpr (Or.inl h)

lemma objInsert_of_not_hasKey (m : List (String × v)) (k : String) (x : v)
    (h : hasKey m k = false) : objInsert m k x = m ++ [(k, x)] := by
  induction m with
  | nil => simp [objInsert]
  | cons p rest ih =>
    obtain ⟨k2, y⟩ := p
    by_cases hk : k2 = k
    · subst hk
      simp [hasKey, getVal] at h
    · simp only [hasKey, getVal, if_neg hk] at h
      simp [objInsert, hk, ih h]

lemma hasKey_iff_mem_keys (m : List (String × v)) (k : String) :
    hasKey m k = true ↔ k ∈ m.map Prod.fst := by
  induction m with
  | nil => simp [hasKey, getVal]
  | cons p rest ih =>
    obtain ⟨k2, y⟩ := p
    by_cases hk : k2 = k
    · simp [hasKey, getVal, hk]
    · simp only [hasKey, getVal, if_neg hk] at *
      simp [ih, hk, Ne.symm hk]

lemma objInsert_map_fst (m : List (String × v)) (k : String) (x : v) :
    (objInsert m k x).map Prod.fst =
      if hasKey m k = true then m.map Prod.fst else m.map Prod.fst ++ [k] := by
  induction m with
  | nil => simp [objInsert, hasKey, getVal]
  | cons p rest ih =>
    obtain ⟨k2, y⟩ := p
    by_cases hk : k2 = k
    · subst hk
      simp [objInsert, hasKey, getVal]
    · simp only [objInsert, if_neg hk, hasKey, getVal, List.map_cons]
      rw [← hasKey]
      by_cases hr : hasKey rest k = true
      · simp [hr, ih]
      · simp only [Bool.not_eq_true] at hr
        simp [hr, ih]

lemma nodupKeys_objInsert (m : List (String × v)) (k : String) (x : v)
    (h : (m.map Prod.fst).Nodup) : ((objInsert m k x).map Prod.fst).Nodup := by
  rw [objInsert_map_fst]
  by_cases hk : hasKey m k = true
  · simp [hk, h]
  · simp only [Bool.not_eq_true] at hk
    have : k ∉ m.map Prod.fst := by
      intro hm
      rw [← hasKey_iff_mem_keys] at hm
      simp [hm] at hk
    simp [hk, List.nodup_append, h, this]

lemma jsMerge_hasKey_left (over : List (String × v)) :
    ∀ (base : List (String × v)) (k : String), hasKey base k = true →
      hasKey (jsMerge base over) k = true := by
  induction over with
  | nil => intro base k h; simpa [jsMerge] using h
  | cons p rest ih =>
    intro base k h
    obtain ⟨k1, x1⟩ := p
    exact ih (objInsert base k1 x1) k (hasKey_objInsert_mono base k1 x1 k h)

lemma jsMerge_hasKey_right (over : List (String × v)) :
    ∀ (base : List (String × v)) (k : String), hasKey over k = true →
      hasKey (jsMerge base over) k = true := by
  induction over with
  | nil => intro base k h; simp [hasKey, getVal] at h
  | cons p rest ih =>
    intro base k h
    obtain ⟨k1, x1⟩ := p
    by_cases hk : k1 = k
    · subst hk
      exact jsMerge_hasKey_left rest (objInsert base k1 x1) k1 (hasKey_objInsert_self base k1 x1)
    · simp only [hasKey, getVal, if_neg hk] at h
      exact ih (objInsert base k1 x1) k h

lemma jsMerge_getVal_notin (over : List (String × v)) :
    ∀ (base : List (String × v)) (k : String), hasKey over k = false →
      getVal (jsMerge base over) k = getVal base k := by
  induction over with
  | nil => intro base k _; simp [jsMerge]
  | cons p rest ih =>
    intro base k h
    obtain ⟨k1, x1⟩ := p
    by_cases hk : k1 = k
    · subst hk
      simp [hasKey, getVal] at h
    · simp only [hasKey, getVal, if_neg hk] at h
      rw [jsMerge, ih (objInsert base k1 x1) k h, getVal_objInsert_ne base k1 x1 k hk]

lemma jsMerge_getVal_in (over : List (String × v)) :
    ∀ (base : List (String × v)) (k : String), (over.map Prod.fst).Nodup →
      hasKey over k = true → getVal (jsMerge base over) k = getVal over k := by
  induction over with
  | nil => intro base k _ h; simp [hasKey, getVal] at h
  | cons p rest ih =>
    intro base k hnd h
    obtain ⟨k1, x1⟩ := p
    simp only [List.map_cons, List.nodup_cons] at hnd
    by_cases hk : k1 = k
    · subst hk
      have hrest : hasKey rest k1 = false := by
        rw [Bool.eq_false_iff]
        intro hr
        exact hnd.1 ((hasKey_iff_mem_keys rest k1).mp hr)
      rw [jsMerge, jsMerge_getVal_notin rest (objInsert base k1 x1) k1 hrest,
        getVal_objInsert_self]
      simp [getVal]
    · simp only [hasKey, getVal, if_neg hk] at h
      rw [jsMerge, ih (objInsert base k1 x1) k hnd.2 h]
      simp [getVal, hk]

/-! ### Shape and membership of the keys a build emits -/

lemma avSchema_keys (tm : ThemeManager c v) (token : String) (bc : c)
    (vars : List (String × (c → String → c))) :
    ∀ (s : List (String × v)) (k : String), hasKey (avSchema tm token bc vars s) k = true →
      hasKey s k = true ∨ ∃ vk, vk ∈ vars.map Prod.fst ∧
        k = formatKey tm.pre tm.divider token ++ tm.divider ++ vk := by
  induction vars with
  | nil => intro s k h; exact Or.inl h
  | cons p rest ih =>
    intro s k h
    obtain ⟨vk, f⟩ := p
    by_cases hv : tm.sourceIsValid (f bc vk) = false
    · rw [avSchema, if_pos hv] at h
      rcases ih s k h with h2 | ⟨vk2, hm, he⟩
      · exact Or.inl h2
      · exact Or.inr ⟨vk2, by simp [hm], he⟩
    · rw [avSchema, if_neg hv] at h
      rcases ih _ k h with h2 | ⟨vk2, hm, he⟩
      · rcases (hasKey_objInsert_iff _ _ _ _).mp h2 with h3 | h3
        · exact Or.inl h3
        · exact Or.inr ⟨vk, by simp, h3⟩
      · exact Or.inr ⟨vk2, by simp [hm], he⟩

lemma avSchema_mono (tm : ThemeManager c v) (token : String) (bc : c)
    (vars : List (String × (c → String → c))) :
    ∀ (s : List (String × v)) (k : String), hasKey s k = true →
      hasKey (avSchema tm token bc vars s) k = true := by
  induction vars with
  | nil => intro s k h; exact h
  | cons p rest ih =>
    intro s k h
    obtain ⟨vk, f⟩ := p
    by_cases hv : tm.sourceIsValid (f bc vk) = false
    · rw [avSchema, if_pos hv]
      exact ih s k h
    · rw [avSchema, if_neg hv]
      exact ih _ k (hasKey_objInsert_mono _ _ _ _ h)

lemma avSchema_hasKey_of_valid (tm : ThemeManager c v) (token : String) (bc : c)
    (vars : List (String × (c → String → c))) :
    ∀ (s : List (String × v)) (vk : String) (f : c → String → c), (vk, f) ∈ vars →
      tm.sourceIsValid (f bc vk) = true →
      hasKey (avSchema tm token bc vars s)
        (formatKey tm.pre tm.divider token ++ tm.divider ++ vk) = true := by
  induction vars with
  | nil => intro s vk f hm; simp at hm
  | cons p rest ih =>
    intro s vk f hm hvalid
    obtain ⟨vk1, f1⟩ := p
    rcases List.mem_cons.mp hm with he | ht
    · rw [Prod.mk.injEq] at he
      obtain ⟨he1, he2⟩ := he
      subst he1; subst he2
      have hv : ¬ tm.sourceIsValid (f bc vk) = false := by simp [hvalid]
      rw [avSchema, if_neg hv]
      exact avSchema_mono tm token bc rest _ _ (hasKey_objInsert_self _ _ _)
    · by_cases hv : tm.sourceIsValid (f1 bc vk1) = false
      · rw [avSchema, if_pos hv]
        exact ih s vk f ht hvalid
      · rw [avSchema, if_neg hv]
        exact ih _ vk f ht hvalid

lemma ptSchema_keys (tm : ThemeManager c v) (sc : List (String × String)) (t : String)
    (s : List (String × v)) (k : String) (h : hasKey (ptSchema tm sc t s) k = true) :
    hasKey s k = true ∨ k = formatKey tm.pre tm.divider t ∨
      ∃ vk, vk ∈ tm.variants.map Prod.fst ∧
        k = formatKey tm.pre tm.divider t ++ tm.divider ++ vk := by
  by_cases h1 : tm.tokens.contains t = false
  · rw [ptSchema, if_pos h1] at h; exact Or.inl h
  · by_cases h2 : (getVal sc t).getD "" = ""
    · rw [ptSchema, if_neg h1, if_pos h2] at h; exact Or.inl h
    · cases hd : tm.dye ((getVal sc t).getD "") with
      | none =>
        simp only [ptSchema, if_neg h1, if_neg h2, hd] at h
        exact Or.inl h
      | some pc =>
        by_cases h3 : isScoped tm.colorScope t = true
        · simp only [ptSchema, if_neg h1, if_neg h2, hd, if_pos h3] at h
          rcases avSchema_keys tm t pc tm.variants _ k h with h4 | ⟨vk, hm, he⟩
          · rcases (hasKey_objInsert_iff _ _ _ _).mp h4 with h5 | h5
            · exact Or.inl h5
            · exact Or.inr (Or.inl h5)
          · exact Or.inr (Or.inr ⟨vk, hm, he⟩)
        · simp only [ptSchema, if_neg h1, if_neg h2, hd, if_neg h3] at h
          rcases (hasKey_objInsert_iff _ _ _ _).mp h with h5 | h5
          · exact Or.inl h5
          · exact Or.inr (Or.inl h5)

lemma ptSchema_mono (tm : ThemeManager c v) (sc : List (String × String)) (t : String)
    (s : List (String × v)) (k : String) (h : hasKey s k = true) :
    hasKey (ptSchema tm sc t s) k = true := by
  by_cases h1 : tm.tokens.contains t = false
  · rw [ptSchema, if_pos h1]; exact h
  · by_cases h2 : (getVal sc t).getD "" = ""
    · rw [ptSchema, if_neg h1, if_pos h2]; exact h
    · cases hd : tm.dye ((getVal sc t).getD "") with
      | none => simp only [ptSchema, if_neg h1, if_neg h2, hd]; exact h
      | some pc =>
        by_cases h3 : isScoped tm.colorScope t = true
        · simp only [ptSchema, if_neg h1, if_neg h2, hd, if_pos h3]
          exact avSchema_mono tm t pc tm.variants _ k (hasKey_objInsert_mono _ _ _ _ h)
        · simp only [ptSchema, if_neg h1, if_neg h2, hd, if_neg h3]
          exact hasKey_objInsert_mono _ _ _ _ h

lemma loopSchema_keys (tm : ThemeManager c v) (sc : List (String × String)) (ks : List String) :
    ∀ (s : List (String × v)) (k : String), hasKey (loopSchema tm sc ks s) k = true →
      hasKey s k = true ∨ ∃ t, t ∈ ks ∧ (k = formatKey tm.pre tm.divider t ∨
        ∃ vk, vk ∈ tm.variants.map Prod.fst ∧
          k = formatKey tm.pre tm.divider t ++ tm.divider ++ vk) := by
  induction ks with
  | nil => intro s k h; exact Or.inl h
  | cons t ts ih =>
    intro s k h
    rw [loopSchema] at h
    rcases ih _ k h with h2 | ⟨t2, hm, he⟩
    · rcases ptSchema_keys tm sc t s k h2 with h3 | h3
      · exact Or.inl h3
      · exact Or.inr ⟨t, by simp, h3⟩
    · exact Or.inr ⟨t2, by simp [hm], he⟩

lemma loopSchema_mono (tm : ThemeManager c v) (sc : List (String × String)) (ks : List String) :
    ∀ (s : List (String × v)) (k : String), hasKey s k = true →
      hasKey (loopSchema tm sc ks s) k = true := by
  induction ks with
  | nil => intro s k h; exact h
  | cons t ts ih =>
    intro s k h
    rw [loopSchema]
    exact ih _ k (ptSchema_mono tm sc t s k h)

lemma loopSchema_of_ptSchema (tm : ThemeManager c v) (sc : List (String × String))
    (ks : List String) (t : String) (key : String) (hm : t ∈ ks)
    (h : ∀ s : List (String × v), hasKey (ptSchema tm sc t s) key = true) :
    ∀ s : List (String × v), hasKey (loopSchema tm sc ks s) key = true := by
  induction ks with
  | nil => simp at hm
  | cons t1 ts ih =>
    intro s
    rw [loopSchema]
    rcases List.mem_cons.mp hm with he | ht
    · subst he
      exact loopSchema_mono tm sc ts _ key (h s)
    · exact ih ht _

lemma loopLogs_mem (tm : ThemeManager c v) (sc : List (String × String)) (ks : List String)
    (t : String) (x : LogLevel × String) (hm : t ∈ ks) (h : x ∈ ptLogs tm sc t) :
    x ∈ loopLogs tm sc ks := by
  induction ks with
  | nil => simp at hm
  | cons t1 ts ih =>
    rw [loopLogs, List.mem_append]
    rcases List.mem_cons.mp hm with he | ht
    · subst he
      exact Or.inl h
    · exact Or.inr (ih ht)

/-! ### The logged messages do not depend on the strict flag -/

lemma avLogs_strict (tm : ThemeManager c v) (b : Bool) (token : String) (bc : c)
    (vars : List (String × (c → String → c))) :
    avLogs { tm with strict := b } token bc vars = avLogs tm token bc vars := by
  induction vars with
  | nil => simp [avLogs]
  | cons p rest ih =>
    obtain ⟨vk, f⟩ := p
    simp only [avLogs, ih]

lemma ptLogs_strict (tm : ThemeManager c v) (b : Bool) (sc : List (String × String))
    (t : String) : ptLogs { tm with strict := b } sc t = ptLogs tm sc t := by
  simp only [ptLogs, avLogs_strict]

lemma loopLogs_strict (tm : ThemeManager c v) (b : Bool) (sc : List (String × String))
    (ks : List String) : loopLogs { tm with strict := b } sc ks = loopLogs tm sc ks := by
  induction ks with
  | nil => simp [loopLogs]
  | cons t ts ih => simp only [loopLogs, ptLogs_strict, ih]

/-! ### Built schemas have no duplicate keys -/

lemma avSchema_nodup (tm : ThemeManager c v) (token : String) (bc : c)
    (vars : List (String × (c → String → c))) :
    ∀ s : List (String × v), (s.map Prod.fst).Nodup →
      ((avSchema tm token bc vars s).map Prod.fst).Nodup := by
  induction vars with
  | nil => intro s h; exact h
  | cons p rest ih =>
    intro s h
    obtain ⟨vk, f⟩ := p
    by_cases hv : tm.sourceIsValid (f bc vk) = false
    · rw [avSchema, if_pos hv]
      exact ih s h
    · rw [avSchema, if_neg hv]
      exact ih _ (nodupKeys_objInsert _ _ _ h)

lemma ptSchema_nodup (tm : ThemeManager c v) (sc : List (String × String)) (t : String)
    (s : List (String × v)) (h : (s.map Prod.fst).Nodup) :
    ((ptSchema tm sc t s).map Prod.fst).Nodup := by
  by_cases h1 : tm.tokens.contains t = false
  · rw [ptSchema, if_pos h1]; exact h
  · by_cases h2 : (getVal sc t).getD "" = ""
    · rw [ptSchema, if_neg h1, if_pos h2]; exact h
    · cases hd : tm.dye ((getVal sc t).getD "") with
      | none => simp only [ptSchema, if_neg h1, if_neg h2, hd]; exact h
      | some pc =>
        by_cases h3 : isScoped tm.colorScope t = true
        · simp only [ptSchema, if_neg h1, if_neg h2, hd, if_pos h3]
          exact avSchema_nodup tm t pc tm.variants _ (nodupKeys_objInsert _ _ _ h)
        · simp only [ptSchema, if_neg h1, if_neg h2, hd, if_neg h3]
          exact nodupKeys_objInsert _ _ _ h

lemma loopSchema_nodup (tm : ThemeManager c v) (sc : List (String × String))
    (ks : List String) :
    ∀ s : List (String × v), (s.map Prod.fst).Nodup →
      ((loopSchema tm sc ks s).map Prod.fst).Nodup := by
  induction ks with
  | nil => intro s h; exact h
  | cons t ts ih =>
    intro s h
    rw [loopSchema]
    exact ih _ (ptSchema_nodup tm sc t s h)

/-! ### Variant keys are emitted in variant-insertion order -/

lemma avSchema_order (tm : ThemeManager c v) (token : String) (bc : c)
    (vars : List (String × (c → String → c))) :
    ∀ s : List (String × v),
      (∀ vk, vk ∈ vars.map Prod.fst →
        hasKey s (formatKey tm.pre tm.divider token ++ tm.divider ++ vk) = false) →
      (vars.map (fun p => formatKey tm.pre tm.divider token ++ tm.divider ++ p.1)).Nodup →
      avSchema tm token bc vars s =
        s ++ (vars.filter (fun p => tm.sourceIsValid (p.2 bc p.1))).map
          (fun p => (formatKey tm.pre tm.divider token ++ tm.divider ++ p.1,
            tm.colorSerializer (p.2 bc p.1) p.1)) := by
  induction vars with
  | nil => intro s _ _; simp [avSchema]
  | cons p rest ih =>
    intro s hfresh hnd
    obtain ⟨vk, f⟩ := p
    simp only [List.map_cons, List.nodup_cons] at hnd
    by_cases hv : tm.sourceIsValid (f bc vk) = false
    · rw [avSchema, if_pos hv,
        ih s (fun vk2 hm => hfresh vk2 (by simp [hm])) hnd.2, List.filter_cons]
      simp [hv]
    · have hfv : tm.sourceIsValid (f bc vk) = true := by simpa using hv
      have hkey : hasKey s (formatKey tm.pre tm.divider token ++ tm.divider ++ vk) = false :=
        hfresh vk (by simp)
      have hfresh2 : ∀ vk2, vk2 ∈ rest.map Prod.fst →
          hasKey (s ++ [(formatKey tm.pre tm.divider token ++ tm.divider ++ vk,
              tm.colorSerializer (f bc vk) vk)])
            (formatKey tm.pre tm.divider token ++ tm.divider ++ vk2) = false := by
        intro vk2 hm2
        have hne : formatKey tm.pre tm.divider token ++ tm.divider ++ vk ≠
            formatKey tm.pre tm.divider token ++ tm.divider ++ vk2 := by
          intro he
          rcases List.mem_map.mp hm2 with ⟨q, hq, hq2⟩
          exact hnd.1 (List.mem_map.mpr ⟨q, hq, by rw [hq2]; exact he.symm⟩)
        rw [hasKey_append]
        have h1 : hasKey s (formatKey tm.pre tm.divider token ++ tm.divider ++ vk2) = false :=
          hfresh vk2 (by simp [hm2])
        have h2 : hasKey [(formatKey tm.pre tm.divider token ++ tm.divider ++ vk,
            tm.colorSerializer (f bc vk) vk)]
            (formatKey tm.pre tm.divider token ++ tm.divider ++ vk2) = false := by
          simp [hasKey, getVal, hne]
        rw [h1, h2]
        rfl
      rw [avSchema, if_neg hv, objInsert_of_not_hasKey s _ _ hkey,
        ih _ hfresh2 hnd.2, List.filter_cons]
      simp [hfv]

/-! ### The cache after a successful no-argument build -/

lemma generateTheme_none_cache (tm : ThemeManager c v) (s : List (String × v))
    (l : List (LogLevel × String)) (tm1 : ThemeManager c v)
    (h : generateTheme tm none = Except.ok (s, l, tm1)) :
    tm1.baseColorSchema = some s := by
  cases hb : tm.baseColorSchema with
  | some b =>
    rw [generateTheme_cached tm b hb] at h
    simp only [Except.ok.injEq, Prod.mk.injEq] at h
    obtain ⟨h1, _, h3⟩ := h
    rw [← h3, hb, h1]
  | none =>
    rw [generateTheme_build tm none (fun _ => hb)] at h
    simp only [buildSchema, Option.getD] at h
    cases hl : buildLoop tm tm.colors (tm.colors.map Prod.fst) ([], []) with
    | error e => rw [hl] at h; simp at h
    | ok acc =>
      obtain ⟨sch, lg⟩ := acc
      rw [hl] at h
      simp only [Except.ok.injEq, Prod.mk.injEq] at h
      obtain ⟨h1, _, h3⟩ := h
      rw [← h3]
      simp [nextState, hb, h1]

/-- The built schema of a successful `buildLoop` run started from the empty
accumulator is `loopSchema`, in strict and non-strict mode alike. -/
lemma buildLoop_ok_schema (tm : ThemeManager c v) (sc : List (String × String))
    (ks : List String) (sch : List (String × v)) (lg : List (LogLevel × String))
    (h : buildLoop tm sc ks ([], []) = Except.ok (sch, lg)) :
    sch = loopSchema tm sc ks [] := by
  cases hstrict : tm.strict with
  | false =>
    rw [buildLoop_spec_false tm sc hstrict ks [] []] at h
    simp only [Except.ok.injEq, Prod.mk.injEq] at h
    exact h.1.symm
  | true =>
    rw [buildLoop_spec_true tm sc hstrict ks [] []] at h
    cases hl : loopLogs tm sc ks with
    | nil =>
      rw [hl] at h
      simp only [Except.ok.injEq, Prod.mk.injEq] at h
      exact h.1.symm
    | cons q rest =>
      obtain ⟨lvl, m⟩ := q
      rw [hl] at h
      simp at h

/-! ### A concrete executable model of the external color collaborator

The color library (colorus-js) is out of scope per the spec; for concrete
runs the processed color is represented by its input string, parsing
always succeeds and every transform output is valid. -/

/-- Concrete `dye`: parsing always yields a processed color. -/
def demoDye : String → Option String := fun s => some s

/-- Concrete validity flag: every transform output is valid. -/
def demoValid : String → Bool := fun _ => true

/-- Modelled from the spec: the default variants `lighter` and `darker`
(source lines 123-126) call the external lighten/darken transforms at
intensity 0.12; the color math itself is out of scope, so the transforms
are represented by tagging the color string. -/
def demoVariants : List (String × (String → String → String)) :=
  [("lighter", fun cs _ => "lighter(" ++ cs ++ ")"),
   ("darker", fun cs _ => "darker(" ++ cs ++ ")")]

/-- Concrete serializer: the processed color itself. -/
def demoSerializer : String → String → String := fun cs _ => cs

/-- The spec §8 example instance: colors button.bg/text.fg, scope
[bg, fg], default variants, prefix `--`, divider `-`. -/
def tmBase : ThemeManager String String :=
  mkThemeManager demoDye demoValid [("button.bg", "#3366ff"), ("text.fg", "#333333")]
    (some ["bg", "fg"]) demoVariants demoSerializer (some "--") (some "-") false

/-- A two-token instance used to exercise override calls. -/
def tmOverride : ThemeManager String String :=
  mkThemeManager demoDye demoValid [("a.bg", "#111111"), ("b.bg", "#222222")]
    (some ["bg"]) demoVariants demoSerializer (some "--") (some "-") false

/-- A strict-mode instance with no cached base schema. -/
def tmStrict : ThemeManager String String :=
  mkThemeManager demoDye demoValid [("a.bg", "#111111")]
    (some ["bg"]) demoVariants demoSerializer (some "--") (some "-") true

/-- The single-token instance of the formatting example `accent.fg`. -/
def tmAccent : ThemeManager String String :=
  mkThemeManager demoDye demoValid [("accent.fg", "#aabbcc")]
    none demoVariants demoSerializer (some "--") (some "-") false

/-- Schema of the first no-argument build on `tmBase`. -/
def tmBaseSchema : List (String × String) := resultSchema (generateTheme tmBase none)

/-- Instance state after the first no-argument build on `tmBase`. -/
def tmBaseState : ThemeManager String String := resultState (generateTheme tmBase none) tmBase

/-! ### Claims -/

/-- C1: a no-argument `generateTheme` call that returned a schema has
stored that schema as the base-schema cache, and every later no-argument
call — even after the underlying base color mapping is replaced by an
arbitrary mutation — returns exactly the cached schema with no logger
activity and no state change; in particular two no-argument calls return
equal schemas. -/
theorem generateTheme_noarg_idempotent (tm : ThemeManager c v) (s : List (String × v))
    (l : List (LogLevel × String)) (tm1 : ThemeManager c v)
    (h : generateTheme tm none = Except.ok (s, l, tm1))
    (newColors : List (String × String)) :
    tm1.baseColorSchema = some s ∧
    generateTheme { tm1 with colors := newColors } none =
      Except.ok (s, [], { tm1 with colors := newColors }) := by
  have hc := generateTheme_none_cache tm s l tm1 h
  exact ⟨hc, generateTheme_cached { tm1 with colors := newColors } s hc⟩

/-- Witness for C1: the concrete first build on `tmBase` populates the
cache, and a second no-argument call after mutating the colors to the
empty mapping still returns the first schema. -/
theorem generateTheme_noarg_idempotent_witness :
    generateTheme tmBase none = Except.ok (tmBaseSchema, [], tmBaseState) ∧
    (tmBaseState.baseColorSchema = some tmBaseSchema ∧
      generateTheme { tmBaseState with colors := [] } none =
        Except.ok (tmBaseSchema, [], { tmBaseState with colors := [] })) :=
  ⟨rfl, generateTheme_noarg_idempotent tmBase tmBaseSchema [] tmBaseState rfl []⟩

/-- C8: end-to-end example — for colors button.bg `#3366ff` and text.fg
`#333333`, scope [bg, fg], the default variants, prefix `--` and divider
`-`, the no-argument build returns a schema whose keys are exactly the six
listed ones, in this order, and no other. -/
theorem generateTheme_example_keys :
    (resultSchema (generateTheme tmBase none)).map Prod.fst =
      ["--button-bg", "--button-bg-lighter", "--button-bg-darker",
       "--text-fg", "--text-fg-lighter", "--text-fg-darker"] := by
  decide

/-- C9 is false on the code: `JSON.parse` is unguarded in `parseFromJson`
(no try/catch around line 425), so a malformed input makes the call raise
instead of logging an error and returning an empty mapping. -/
theorem parseFromJson_malformed_counterexample :
    parseFromJson tmBase JsonParse.malformed = Except.error jsonParseErrorMsg ∧
    (parseFromJson tmBase JsonParse.malformed).isOk = false := by
  exact ⟨rfl, rfl⟩

/-- C9 amended: on input that is not valid JSON the parse failure
propagates to the caller (the call raises and yields no schema); the
log-an-error-and-return-empty behavior occurs only for well-formed JSON
denoting a falsy value such as `null`, and only in non-strict mode. -/
theorem parseFromJson_malformed_raises (tm : ThemeManager c v) :
    parseFromJson tm JsonParse.malformed = Except.error jsonParseErrorMsg ∧
    (tm.strict = false → parseFromJson tm JsonParse.falsyValue =
      Except.ok ([], [(LogLevel.error, invalidJsonMsg)], tm)) := by
  refine ⟨rfl, ?_⟩
  intro h
  simp [parseFromJson, emitLog, h]

/-- Witness for the amended C9 at the concrete instance `tmBase`. -/
theorem parseFromJson_malformed_raises_witness :
    tmBase.strict = false ∧
    parseFromJson tmBase JsonParse.malformed = Except.error jsonParseErrorMsg ∧
    parseFromJson tmBase JsonParse.falsyValue =
      Except.ok ([], [(LogLevel.error, invalidJsonMsg)], tmBase) :=
  ⟨rfl, (parseFromJson_malformed_raises tmBase).1,
    (parseFromJson_malformed_raises tmBase).2 rfl⟩

/-- C3 is false on the code: with no cached base schema, an override call
uses only the override color set (`colors || this.colors`); the registry
token `b.bg`, absent from the override, contributes no entry — the result
holds exactly the keys derived from the override token `a.bg`. -/
theorem generateTheme_override_counterexample :
    (generateTheme tmOverride (some [("a.bg", "#333333")])).isOk = true ∧
    (resultSchema (generateTheme tmOverride (some [("a.bg", "#333333")]))).map Prod.fst =
      ["--a-bg", "--a-bg-lighter", "--a-bg-darker"] ∧
    hasKey (resultSchema (generateTheme tmOverride (some [("a.bg", "#333333")]))) "--b-bg" = false := by
  decide

/-- C3 amended: an override call never requires the override to cover all
tokens, but registry tokens absent from the override are not recomputed
from the base mapping: when no base-schema cache exists, every key of the
returned schema derives from a token of the override (its formatted base
key or a variant key of it); tokens outside the override reappear only
through the cached-schema merge when a cache exists. -/
theorem generateTheme_override_keys (tm : ThemeManager c v) (o : List (String × String))
    (s : List (String × v)) (l : List (LogLevel × String)) (tm1 : ThemeManager c v)
    (hb : tm.baseColorSchema = none)
    (h : generateTheme tm (some o) = Except.ok (s, l, tm1)) :
    ∀ k, hasKey s k = true → ∃ t, t ∈ o.map Prod.fst ∧
      (k = formatKey tm.pre tm.divider t ∨ ∃ vk, vk ∈ tm.variants.map Prod.fst ∧
        k = formatKey tm.pre tm.divider t ++ tm.divider ++ vk) := by
  rw [generateTheme_build tm (some o) (fun hx => Option.noConfusion hx)] at h
  simp only [buildSchema, Option.getD_some] at h
  cases hl : buildLoop tm o (o.map Prod.fst) ([], []) with
  | error e => rw [hl] at h; simp at h
  | ok acc =>
    obtain ⟨sch, lg⟩ := acc
    rw [hl] at h
    simp only [Except.ok.injEq, Prod.mk.injEq] at h
    obtain ⟨h1, _, _⟩ := h
    have hsch : sch = loopSchema tm o (o.map Prod.fst) [] := buildLoop_ok_schema tm o _ sch lg hl
    have hms : s = loopSchema tm o (o.map Prod.fst) [] := by
      rw [← h1, mergedSchema, hb, hsch]
    intro k hk
    rw [hms] at hk
    rcases loopSchema_keys tm o (o.map Prod.fst) [] k hk with h2 | ⟨t, hm, he⟩
    · simp [hasKey, getVal] at h2
    · exact ⟨t, hm, he⟩

/-- Witness for the amended C3 at the concrete override instance. -/
theorem generateTheme_override_keys_witness :
    tmOverride.baseColorSchema = none ∧
    generateTheme tmOverride (some [("a.bg", "#333333")]) =
      Except.ok (resultSchema (generateTheme tmOverride (some [("a.bg", "#333333")])),
        resultLogs (generateTheme tmOverride (some [("a.bg", "#333333")])),
        resultState (generateTheme tmOverride (some [("a.bg", "#333333")])) tmOverride) ∧
    (∀ k, hasKey (resultSchema (generateTheme tmOverride (some [("a.bg", "#333333")]))) k = true →
      ∃ t, t ∈ [("a.bg", "#333333")].map Prod.fst ∧
        (k = formatKey tmOverride.pre tmOverride.divider t ∨
          ∃ vk, vk ∈ tmOverride.variants.map Prod.fst ∧
            k = formatKey tmOverride.pre tmOverride.divider t ++ tmOverride.divider ++ vk)) :=
  ⟨rfl, rfl, generateTheme_override_keys tmOverride [("a.bg", "#333333")] _ _ _ rfl rfl⟩

/-! ### The processing loop does not read the cache field -/

lemma appendVariants_cacheUpdate (tm : ThemeManager c v) (x : Option (List (String × v)))
    (token : String) (bc : c) :
    ∀ (vars : List (String × (c → String → c))) (acc : List (String × v) × List (LogLevel × String)),
      appendVariants { tm with baseColorSchema := x } token bc vars acc =
        appendVariants tm token bc vars acc := by
  intro vars
  induction vars with
  | nil => intro acc; rfl
  | cons p rest ih =>
    intro acc
    obtain ⟨vk, f⟩ := p
    obtain ⟨sch, lg⟩ := acc
    by_cases hv : tm.sourceIsValid (f bc vk) = false
    · simp [appendVariants, hv, ih]
    · simp [appendVariants, hv, ih]

lemma processToken_cacheUpdate (tm : ThemeManager c v) (x : Option (List (String × v)))
    (sc : List (String × String)) (t : String)
    (acc : List (String × v) × List (LogLevel × String)) :
    processToken { tm with baseColorSchema := x } sc t acc = processToken tm sc t acc := by
  obtain ⟨sch, lg⟩ := acc
  simp only [processToken, appendVariants_cacheUpdate]

lemma buildLoop_cacheUpdate (tm : ThemeManager c v) (x : Option (List (String × v)))
    (sc : List (String × String)) :
    ∀ (ks : List String) (acc : List (String × v) × List (LogLevel × String)),
      buildLoop { tm with baseColorSchema := x } sc ks acc = buildLoop tm sc ks acc := by
  intro ks
  induction ks with
  | nil => intro acc; rfl
  | cons t ts ih =>
    intro acc
    simp only [buildLoop, processToken_cacheUpdate, ih]

/-- C2: after a successful no-argument build cached `s0`, an override call
whose raw build (same instance with the cache cleared) produces `b` returns
exactly `b` spread on top of `s0`: the keys of `b` — all of them derived
from tokens of the override — carry the newly computed values, every other
key keeps its cached value, and the instance state (hence the cache) is
unchanged. -/
theorem generateTheme_override_merge (tm : ThemeManager c v) (s0 : List (String × v))
    (l0 : List (LogLevel × String)) (tm1 : ThemeManager c v)
    (h1 : generateTheme tm none = Except.ok (s0, l0, tm1))
    (o : List (String × String)) (b : List (String × v)) (lb : List (LogLevel × String))
    (tmb : ThemeManager c v)
    (h2 : generateTheme { tm1 with baseColorSchema := none } (some o) = Except.ok (b, lb, tmb)) :
    generateTheme tm1 (some o) = Except.ok (jsMerge s0 b, lb, tm1) ∧
    (∀ k, hasKey b k = true → getVal (jsMerge s0 b) k = getVal b k) ∧
    (∀ k, hasKey b k = false → getVal (jsMerge s0 b) k = getVal s0 k) ∧
    (∀ k, hasKey b k = true → ∃ t, t ∈ o.map Prod.fst ∧
      (k = formatKey tm1.pre tm1.divider t ∨ ∃ vk, vk ∈ tm1.variants.map Prod.fst ∧
        k = formatKey tm1.pre tm1.divider t ++ tm1.divider ++ vk)) := by
  have hc : tm1.baseColorSchema = some s0 := generateTheme_none_cache tm s0 l0 tm1 h1
  rw [generateTheme_build _ (some o) (fun hx => Option.noConfusion hx)] at h2
  simp only [buildSchema, Option.getD_some] at h2
  rw [buildLoop_cacheUpdate] at h2
  cases hl : buildLoop tm1 o (o.map Prod.fst) ([], []) with
  | error e => rw [hl] at h2; simp at h2
  | ok acc =>
    obtain ⟨sch, lg⟩ := acc
    rw [hl] at h2
    simp [mergedSchema, nextState] at h2
    obtain ⟨hb1, hb2, _⟩ := h2
    have hgen : generateTheme tm1 (some o) = Except.ok (jsMerge s0 b, lb, tm1) := by
      rw [generateTheme_build tm1 (some o) (fun hx => Option.noConfusion hx)]
      simp only [buildSchema, Option.getD_some]
      rw [hl]
      simp [mergedSchema, hc, nextState, hb1, hb2]
    have hbl : sch = loopSchema tm1 o (o.map Prod.fst) [] :=
      buildLoop_ok_schema tm1 o _ sch lg hl
    have hnd : (b.map Prod.fst).Nodup := by
      rw [← hb1, hbl]
      exact loopSchema_nodup tm1 o _ [] (by simp)
    refine ⟨hgen, ?_, ?_, ?_⟩
    · intro k hk
      exact jsMerge_getVal_in b s0 k hnd hk
    · intro k hk
      exact jsMerge_getVal_notin b s0 k hk
    · intro k hk
      rw [← hb1, hbl] at hk
      rcases loopSchema_keys tm1 o (o.map Prod.fst) [] k hk with hx | ⟨t, hm, he⟩
      · simp [hasKey, getVal] at hx
      · exact ⟨t, hm, he⟩

/-- The cache-cleared twin of `tmBase` after its first build. -/
def tmBaseFresh : ThemeManager String String := { tmBaseState with baseColorSchema := none }

/-- Raw schema of the concrete override build on the cache-cleared twin. -/
def ovSchema : List (String × String) :=
  resultSchema (generateTheme tmBaseFresh (some [("button.bg", "#000000")]))

/-- Logs of the concrete override build on the cache-cleared twin. -/
def ovLogs : List (LogLevel × String) :=
  resultLogs (generateTheme tmBaseFresh (some [("button.bg", "#000000")]))

/-- Witness for C2 at the concrete instance `tmBase` with the override
--button-bg ↦ #000000. -/
theorem generateTheme_override_merge_witness :
    generateTheme tmBase none = Except.ok (tmBaseSchema, [], tmBaseState) ∧
    generateTheme tmBaseFresh (some [("button.bg", "#000000")]) =
      Except.ok (ovSchema, ovLogs, resultState (generateTheme tmBaseFresh (some [("button.bg", "#000000")])) tmBaseFresh) ∧
    (generateTheme tmBaseState (some [("button.bg", "#000000")]) =
      Except.ok (jsMerge tmBaseSchema ovSchema, ovLogs, tmBaseState) ∧
    (∀ k, hasKey ovSchema k = true →
      getVal (jsMerge tmBaseSchema ovSchema) k = getVal ovSchema k) ∧
    (∀ k, hasKey ovSchema k = false →
      getVal (jsMerge tmBaseSchema ovSchema) k = getVal tmBaseSchema k) ∧
    (∀ k, hasKey ovSchema k = true → ∃ t, t ∈ [("button.bg", "#000000")].map Prod.fst ∧
      (k = formatKey tmBaseState.pre tmBaseState.divider t ∨
        ∃ vk, vk ∈ tmBaseState.variants.map Prod.fst ∧
          k = formatKey tmBaseState.pre tmBaseState.divider t ++ tmBaseState.divider ++ vk))) :=
  ⟨rfl, rfl,
    generateTheme_override_merge tmBase tmBaseSchema [] tmBaseState rfl
      [("button.bg", "#000000")] ovSchema ovLogs
      (resultState (generateTheme tmBaseFresh (some [("button.bg", "#000000")])) tmBaseFresh) rfl⟩

/-- Strict/non-strict build outcomes on the non-cached path. -/
lemma strict_build_outcome (tm : ThemeManager c v) (co : Option (List (String × String)))
    (h : co = none → tm.baseColorSchema = none) :
    (generateTheme { tm with strict := false } co).isOk = true ∧
    ((generateTheme { tm with strict := true } co).isOk = false ↔
      resultLogs (generateTheme { tm with strict := false } co) ≠ []) := by
  have hF : generateTheme { tm with strict := false } co =
      buildSchema { tm with strict := false } co := generateTheme_build _ co h
  have hT : generateTheme { tm with strict := true } co =
      buildSchema { tm with strict := true } co := generateTheme_build _ co h
  rw [hF, hT, buildSchema_spec_false _ co rfl, buildSchema_spec_true _ co rfl]
  simp only [loopLogs_strict]
  cases hl : loopLogs tm (co.getD tm.colors) ((co.getD tm.colors).map Prod.fst) with
  | nil => simp [resultLogs, hl, Except.isOk, Except.toBool]
  | cons q rest =>
    obtain ⟨lvl, m⟩ := q
    simp [resultLogs, hl, Except.isOk, Except.toBool]

/-- C4: strict mode turns every logger call of a build into a thrown
failure — a strict `generateTheme` call raises exactly when its non-strict
twin would log at least one message, and then produces no schema and (the
only state write sitting after the loop) leaves the instance unchanged;
the non-strict twin never raises for the three skip conditions: it always
completes with a schema. -/
theorem generateTheme_strict_policy (tm : ThemeManager c v)
    (co : Option (List (String × String))) :
    (generateTheme { tm with strict := false } co).isOk = true ∧
    ((generateTheme { tm with strict := true } co).isOk = false ↔
      resultLogs (generateTheme { tm with strict := false } co) ≠ []) := by
  cases co with
  | some o => exact strict_build_outcome tm (some o) (fun hx => Option.noConfusion hx)
  | none =>
    by_cases hb : tm.baseColorSchema = none
    · exact strict_build_outcome tm none (fun _ => hb)
    · obtain ⟨b, hbs⟩ := Option.ne_none_iff_exists'.mp hb
      have hF := generateTheme_cached { tm with strict := false } b hbs
      have hT := generateTheme_cached { tm with strict := true } b hbs
      rw [hF, hT]
      simp [resultLogs, Except.isOk, Except.toBool]

/-- C5: a processed token absent from the token registry is skipped
entirely — its processing step leaves the schema unchanged and logs
exactly the not-in-registry warning; in non-strict mode the build
completes and that warning is among the call's logged messages, while in
strict mode the same input makes the call raise. -/
theorem generateTheme_unregistered_skip (tm : ThemeManager c v)
    (co : Option (List (String × String))) (t : String)
    (hmem : t ∈ (co.getD tm.colors).map Prod.fst)
    (hreg : tm.tokens.contains t = false)
    (hco : co = none → tm.baseColorSchema = none) :
    (∀ s : List (String × v), ptSchema tm (co.getD tm.colors) t s = s) ∧
    ptLogs tm (co.getD tm.colors) t = [(LogLevel.warn, unregMsg t)] ∧
    (tm.strict = false → (generateTheme tm co).isOk = true ∧
      (LogLevel.warn, unregMsg t) ∈ resultLogs (generateTheme tm co)) ∧
    (tm.strict = true → (generateTheme tm co).isOk = false) := by
  have hp1 : ∀ s : List (String × v), ptSchema tm (co.getD tm.colors) t s = s := by
    intro s
    rw [ptSchema, if_pos hreg]
  have hp2 : ptLogs tm (co.getD tm.colors) t = [(LogLevel.warn, unregMsg t)] := by
    rw [ptLogs, if_pos hreg]
  have hmm : (LogLevel.warn, unregMsg t) ∈
      loopLogs tm (co.getD tm.colors) ((co.getD tm.colors).map Prod.fst) :=
    loopLogs_mem tm _ _ t _ hmem (by rw [hp2]; simp)
  refine ⟨hp1, hp2, ?_, ?_⟩
  · intro hs
    rw [generateTheme_build tm co hco, buildSchema_spec_false tm co hs]
    exact ⟨rfl, hmm⟩
  · intro hs
    rw [generateTheme_build tm co hco, buildSchema_spec_true tm co hs]
    cases hl : loopLogs tm (co.getD tm.colors) ((co.getD tm.colors).map Prod.fst) with
    | nil => rw [hl] at hmm; simp at hmm
    | cons q rest =>
      obtain ⟨lvl, m⟩ := q
      rfl

/-- Witness for C5: a non-strict instance logs the warning and completes,
and a strict instance raises, both on an override holding the unregistered
token zzz.bg. -/
theorem generateTheme_unregistered_skip_witness :
    (("zzz.bg" ∈ ([("zzz.bg", "#123456")].map (Prod.fst (α := String) (β := String)))) ∧
      tmOverride.tokens.contains "zzz.bg" = false ∧ tmOverride.strict = false ∧
      ((generateTheme tmOverride (some [("zzz.bg", "#123456")])).isOk = true ∧
        (LogLevel.warn, unregMsg "zzz.bg") ∈
          resultLogs (generateTheme tmOverride (some [("zzz.bg", "#123456")])))) ∧
    (tmStrict.tokens.contains "zzz.bg" = false ∧ tmStrict.strict = true ∧
      (generateTheme tmStrict (some [("zzz.bg", "#123456")])).isOk = false) :=
  ⟨⟨by decide, by decide, rfl,
      (generateTheme_unregistered_skip tmOverride (some [("zzz.bg", "#123456")]) "zzz.bg"
        (by decide) (by decide) (fun hx => Option.noConfusion hx)).2.2.1 rfl⟩,
    ⟨by decide, rfl,
      (generateTheme_unregistered_skip tmStrict (some [("zzz.bg", "#123456")]) "zzz.bg"
        (by decide) (by decide) (fun hx => Option.noConfusion hx)).2.2.2 rfl⟩⟩

/-- Processing a registered, scoped, dyeable token makes each valid
variant key present. -/
lemma ptSchema_hasKey_variant (tm : ThemeManager c v) (sc : List (String × String))
    (t cv : String) (pc : c) (vk : String) (f : c → String → c)
    (hreg : tm.tokens.contains t = true) (hval : getVal sc t = some cv) (hne : cv ≠ "")
    (hdye : tm.dye cv = some pc) (hsc : isScoped tm.colorScope t = true)
    (hm : (vk, f) ∈ tm.variants) (hv : tm.sourceIsValid (f pc vk) = true) :
    ∀ s : List (String × v), hasKey (ptSchema tm sc t s)
      (formatKey tm.pre tm.divider t ++ tm.divider ++ vk) = true := by
  intro s
  have h1 : ¬ tm.tokens.contains t = false := by rw [hreg]; simp
  have h2 : (getVal sc t).getD "" = cv := by rw [hval]; rfl
  rw [ptSchema, if_neg h1, h2, if_neg hne]
  simp only [hdye, hsc, if_true]
  exact avSchema_hasKey_of_valid tm t pc tm.variants _ vk f hm hv

/-- Processing a registered, dyeable token makes its base key present. -/
lemma ptSchema_hasKey_base (tm : ThemeManager c v) (sc : List (String × String))
    (t cv : String) (pc : c)
    (hreg : tm.tokens.contains t = true) (hval : getVal sc t = some cv) (hne : cv ≠ "")
    (hdye : tm.dye cv = some pc) :
    ∀ s : List (String × v),
      hasKey (ptSchema tm sc t s) (formatKey tm.pre tm.divider t) = true := by
  intro s
  have h1 : ¬ tm.tokens.contains t = false := by rw [hreg]; simp
  have h2 : (getVal sc t).getD "" = cv := by rw [hval]; rfl
  rw [ptSchema, if_neg h1, h2, if_neg hne]
  simp only [hdye]
  by_cases hsc : isScoped tm.colorScope t = true
  · simp only [hsc, if_true]
    exact avSchema_mono tm t pc tm.variants _ _ (hasKey_objInsert_self _ _ _)
  · simp only [hsc, if_false]
    exact hasKey_objInsert_self _ _ _

/-- C6: variant keys are produced exactly for the scoped tokens: a
processed scoped token contributes one derived key per configured variant
in variant-insertion order, omitting exactly the variants whose transform
output is invalid, and every valid variant key is present in the returned
schema of a successful build; the processing step of a non-scoped token
adds at most its base key, never a variant key. -/
theorem generateTheme_scoped_variants (tm : ThemeManager c v)
    (co : Option (List (String × String))) (t cv : String) (pc : c)
    (hco : co = none → tm.baseColorSchema = none)
    (hreg : tm.tokens.contains t = true)
    (hmem : t ∈ (co.getD tm.colors).map Prod.fst)
    (hval : getVal (co.getD tm.colors) t = some cv)
    (hne : cv ≠ "")
    (hdye : tm.dye cv = some pc) :
    (isScoped tm.colorScope t = true →
      ∀ s l tm1, generateTheme tm co = Except.ok (s, l, tm1) →
        ∀ vk f, (vk, f) ∈ tm.variants → tm.sourceIsValid (f pc vk) = true →
          hasKey s (formatKey tm.pre tm.divider t ++ tm.divider ++ vk) = true) ∧
    (isScoped tm.colorScope t = false →
      ∀ (s2 : List (String × v)) (k : String),
        hasKey (ptSchema tm (co.getD tm.colors) t s2) k = true →
        hasKey s2 k = true ∨ k = formatKey tm.pre tm.divider t) ∧
    (∀ s2 : List (String × v),
      (∀ vk, vk ∈ tm.variants.map Prod.fst →
        hasKey s2 (formatKey tm.pre tm.divider t ++ tm.divider ++ vk) = false) →
      (tm.variants.map (fun p => formatKey tm.pre tm.divider t ++ tm.divider ++ p.1)).Nodup →
      avSchema tm t pc tm.variants s2 =
        s2 ++ (tm.variants.filter (fun p => tm.sourceIsValid (p.2 pc p.1))).map
          (fun p => (formatKey tm.pre tm.divider t ++ tm.divider ++ p.1,
            tm.colorSerializer (p.2 pc p.1) p.1))) := by
  refine ⟨?_, ?_, ?_⟩
  · intro hsc s l tm1 hok vk f hm hv
    rw [generateTheme_build tm co hco] at hok
    revert hok
    simp only [buildSchema]
    cases hl : buildLoop tm (co.getD tm.colors) ((co.getD tm.colors).map Prod.fst) ([], []) with
    | error e => intro hok; simp at hok
    | ok acc =>
      obtain ⟨sch, lg⟩ := acc
      intro hok
      simp only [Except.ok.injEq, Prod.mk.injEq] at hok
      obtain ⟨hs1, _, _⟩ := hok
      have hsch : sch = loopSchema tm (co.getD tm.colors) ((co.getD tm.colors).map Prod.fst) [] :=
        buildLoop_ok_schema tm _ _ sch lg hl
      have hkey : hasKey sch (formatKey tm.pre tm.divider t ++ tm.divider ++ vk) = true := by
        rw [hsch]
        exact loopSchema_of_ptSchema tm _ _ t _ hmem
          (ptSchema_hasKey_variant tm _ t cv pc vk f hreg hval hne hdye hsc hm hv) []
      rw [← hs1]
      cases hb : tm.baseColorSchema with
      | none => simp only [mergedSchema, hb]; exact hkey
      | some base =>
        simp only [mergedSchema, hb]
        exact jsMerge_hasKey_right sch base _ hkey
  · intro hsc s2 k hk
    by_cases h1 : tm.tokens.contains t = false
    · rw [ptSchema, if_pos h1] at hk; exact Or.inl hk
    · by_cases h2 : (getVal (co.getD tm.colors) t).getD "" = ""
      · rw [ptSchema, if_neg h1, if_pos h2] at hk; exact Or.inl hk
      · cases hd : tm.dye ((getVal (co.getD tm.colors) t).getD "") with
        | none =>
          simp only [ptSchema, if_neg h1, if_neg h2, hd] at hk
          exact Or.inl hk
        | some pc2 =>
          have hsc2 : ¬ isScoped tm.colorScope t = true := by simp [hsc]
          simp only [ptSchema, if_neg h1, if_neg h2, hd, if_neg hsc2] at hk
          rcases (hasKey_objInsert_iff _ _ _ _).mp hk with h5 | h5
          · exact Or.inl h5
          · exact Or.inr h5
  · intro s2 hfresh hnd
    exact avSchema_order tm t pc tm.variants s2 hfresh hnd

/-- Witness for C6 at the concrete instance `tmBase` with the scoped token
button.bg. -/
theorem generateTheme_scoped_variants_witness :
    (tmBase.tokens.contains "button.bg" = true ∧
      "button.bg" ∈ tmBase.colors.map (Prod.fst (α := String) (β := String)) ∧
      getVal tmBase.colors "button.bg" = some "#3366ff" ∧
      ("#3366ff" : String) ≠ "" ∧ tmBase.dye "#3366ff" = some "#3366ff") ∧
    ((isScoped tmBase.colorScope "button.bg" = true →
      ∀ s l tm1, generateTheme tmBase none = Except.ok (s, l, tm1) →
        ∀ vk f, (vk, f) ∈ tmBase.variants → tmBase.sourceIsValid (f "#3366ff" vk) = true →
          hasKey s (formatKey tmBase.pre tmBase.divider "button.bg" ++ tmBase.divider ++ vk) = true) ∧
    (isScoped tmBase.colorScope "button.bg" = false →
      ∀ (s2 : List (String × String)) (k : String),
        hasKey (ptSchema tmBase tmBase.colors "button.bg" s2) k = true →
        hasKey s2 k = true ∨ k = formatKey tmBase.pre tmBase.divider "button.bg") ∧
    (∀ s2 : List (String × String),
      (∀ vk, vk ∈ tmBase.variants.map Prod.fst →
        hasKey s2 (formatKey tmBase.pre tmBase.divider "button.bg" ++ tmBase.divider ++ vk) = false) →
      (tmBase.variants.map
        (fun p => formatKey tmBase.pre tmBase.divider "button.bg" ++ tmBase.divider ++ p.1)).Nodup →
      avSchema tmBase "button.bg" "#3366ff" tmBase.variants s2 =
        s2 ++ (tmBase.variants.filter (fun p => tmBase.sourceIsValid (p.2 "#3366ff" p.1))).map
          (fun p => (formatKey tmBase.pre tmBase.divider "button.bg" ++ tmBase.divider ++ p.1,
            tmBase.colorSerializer (p.2 "#3366ff" p.1) p.1)))) :=
  ⟨⟨by decide, by decide, by decide, by decide, rfl⟩,
    generateTheme_scoped_variants tmBase none "button.bg" "#3366ff" "#3366ff" (fun _ => rfl)
      (by decide) (by decide) (by decide) (by decide) rfl⟩

/-- C7: every key the processing of a token emits is either the base key
`prefix ++ token` with each `.` replaced by the divider, or that base key
extended by `divider ++ variantName`; a registered token with a non-empty
dyeable value makes its base key present; and the concrete instance with
prefix `--`, divider `-` maps accent.fg to --accent-fg with variant keys
--accent-fg-lighter and --accent-fg-darker. -/
theorem formattedKey_shape (tm : ThemeManager c v) (sc : List (String × String)) (t : String)
    (s : List (String × v)) :
    (∀ k, hasKey (ptSchema tm sc t s) k = true → hasKey s k = true ∨
      k = tm.pre ++ replaceDots tm.divider t ∨
      ∃ vk, vk ∈ tm.variants.map Prod.fst ∧
        k = tm.pre ++ replaceDots tm.divider t ++ tm.divider ++ vk) ∧
    (∀ cv pc, tm.tokens.contains t = true → getVal sc t = some cv → cv ≠ "" →
      tm.dye cv = some pc →
      hasKey (ptSchema tm sc t s) (tm.pre ++ replaceDots tm.divider t) = true) ∧
    (resultSchema (generateTheme tmAccent none)).map Prod.fst =
      ["--accent-fg", "--accent-fg-lighter", "--accent-fg-darker"] := by
  refine ⟨?_, ?_, by decide⟩
  · intro k hk
    have h := ptSchema_keys tm sc t s k hk
    simpa [formatKey] using h
  · intro cv pc hreg hval hne hdye
    have h := ptSchema_hasKey_base tm sc t cv pc hreg hval hne hdye s
    simpa [formatKey] using h

/-- Witness for C7 at the concrete instance `tmAccent`. -/
theorem formattedKey_shape_witness :
    (tmAccent.tokens.contains "accent.fg" = true ∧
      getVal tmAccent.colors "accent.fg" = some "#aabbcc" ∧
      ("#aabbcc" : String) ≠ "" ∧ tmAccent.dye "#aabbcc" = some "#aabbcc") ∧
    hasKey (ptSchema tmAccent tmAccent.colors "accent.fg" [])
      (tmAccent.pre ++ replaceDots tmAccent.divider "accent.fg") = true ∧
    (resultSchema (generateTheme tmAccent none)).map Prod.fst =
      ["--accent-fg", "--accent-fg-lighter", "--accent-fg-darker"] :=
  ⟨⟨by decide, by decide, by decide, rfl⟩,
    (formattedKey_shape tmAccent tmAccent.colors "accent.fg" []).2.1 "#aabbcc" "#aabbcc"
      (by decide) (by decide) (by decide) rfl,
    (formattedKey_shape tmAccent tmAccent.colors "accent.fg" []).2.2⟩

/-- C10: with no cached base schema, `parseFromJson` on well-formed JSON
first emits the warning recommending a base schema and then delegates to
`generateTheme` with the parsed mapping as the override set (in non-strict
mode it returns the delegated schema and state with the warning prepended
to the delegated logs); and on a strict instance with no cache every
`parseFromJson` call raises before any schema is produced. -/
theorem parseFromJson_nocache (tm : ThemeManager c v) (hb : tm.baseColorSchema = none) :
    (∀ m, tm.strict = false → ∃ s l tm1, generateTheme tm (some m) = Except.ok (s, l, tm1) ∧
      parseFromJson tm (JsonParse.obj m) =
        Except.ok (s, (LogLevel.warn, noBaseWarnMsg) :: l, tm1)) ∧
    (tm.strict = true → ∀ j, (parseFromJson tm j).isOk = false) := by
  constructor
  · intro m hs
    have h1 : generateTheme tm (some m) = buildSchema tm (some m) :=
      generateTheme_build tm (some m) (fun hx => Option.noConfusion hx)
    rw [h1, buildSchema_spec_false tm (some m) hs]
    refine ⟨_, _, _, rfl, ?_⟩
    simp [parseFromJson, hb, emitLog, hs, h1, buildSchema_spec_false tm (some m) hs]
  · intro hs j
    cases j with
    | malformed => rfl
    | falsyValue => simp [parseFromJson, emitLog, hs, Except.isOk, Except.toBool]
    | obj m => simp [parseFromJson, hb, emitLog, hs, Except.isOk, Except.toBool]

/-- Witness for C10: the no-base warning and delegation on a non-strict
instance, and the raise on a strict instance. -/
theorem parseFromJson_nocache_witness :
    tmOverride.baseColorSchema = none ∧ tmOverride.strict = false ∧
    (∃ s l tm1, generateTheme tmOverride (some [("a.bg", "#999999")]) = Except.ok (s, l, tm1) ∧
      parseFromJson tmOverride (JsonParse.obj [("a.bg", "#999999")]) =
        Except.ok (s, (LogLevel.warn, noBaseWarnMsg) :: l, tm1)) ∧
    tmStrict.baseColorSchema = none ∧ tmStrict.strict = true ∧
    (parseFromJson tmStrict (JsonParse.obj [("a.bg", "#111111")])).isOk = false :=
  ⟨rfl, rfl, (parseFromJson_nocache tmOverride rfl).1 [("a.bg", "#999999")] rfl,
    rfl, rfl, (parseFromJson_nocache tmStrict rfl).2 rfl (JsonParse.obj [("a.bg", "#111111")])⟩

end Themix
